import Mathlib

/-!
Verification of `Mask_analysis/Mask_evaluator.py` (MaskTrackEvaluator).

The file shallowly embeds the pure logic of the evaluator:
binary 2D masks, the Jaccard/Dice metrics, ground-truth normalization,
filename identifier extraction, three-way file alignment, track-id
reconciliation and the summary-row aggregation, and proves the stated
properties about them.
-/

namespace MaskEvaluator

/-- A binary 2D mask: `h` rows, `w` columns, `px i j = true` means the pixel
at row `i`, column `j` is foreground.  This embeds the numpy `uint8` arrays
produced by `_read_mask` (values already thresholded to `{0,1}`). -/
structure Grid where
  h : ℕ
  w : ℕ
  px : ℕ → ℕ → Bool

/-- The set of foreground pixel positions `(row, col)` of a mask.
`np.logical_and(a, b).sum()` over same-shape binary arrays is the cardinality
of the intersection of the two foreground sets, `a.sum()` is `(fg a).card`. -/
def fg (m : Grid) : Finset (ℕ × ℕ) :=
  (Finset.range m.h ×ˢ Finset.range m.w).filter fun p => m.px p.1 p.2 = true

/-- The two masks have the same array shape (numpy broadcasting aside, the
metrics are only ever applied to same-shape masks). -/
def sameShape (a b : Grid) : Prop := a.h = b.h ∧ a.w = b.w

/-- Embeds `jaccard_index`:
`inter = np.logical_and(a, b).sum(); union = np.logical_or(a, b).sum();
return 1.0 if union == 0 else inter / union`, with exact rationals in place
of floats. -/
def jaccard_index (a b : Grid) : ℚ :=
  let inter := (fg a ∩ fg b).card
  let union := (fg a ∪ fg b).card
  if union = 0 then 1 else (inter : ℚ) / union

/-- Embeds `dice_coefficient`:
`inter = np.logical_and(a, b).sum(); denom = a.sum() + b.sum();
return 1.0 if denom == 0 else 2 * inter / denom`. -/
def dice_coefficient (a b : Grid) : ℚ :=
  let inter := (fg a ∩ fg b).card
  let denom := (fg a).card + (fg b).card
  if denom = 0 then 1 else (2 * inter : ℚ) / denom

/-- One row of the "Mask Metrics" table, as built by `evaluate_mask_metrics`
for a single aligned set (the identifying file columns are carried
separately by the caller). -/
structure MaskMetricsRow where
  jaccard : ℚ
  dice : ℚ
  intersection : ℕ
  falsePositives : ℤ
deriving DecidableEq

/-- Embeds the per-entry body of `evaluate_mask_metrics`:
`jaccard = jaccard_index(roi, gt); dice = dice_coefficient(roi, gt);
inter = int(np.logical_and(roi, gt).sum());
false_pos = int(roi.sum() - inter)` — note: no clamping of `false_pos`. -/
def evaluate_mask_metrics_entry (roi gt : Grid) : MaskMetricsRow :=
  { jaccard := jaccard_index roi gt
    dice := dice_coefficient roi gt
    intersection := (fg roi ∩ fg gt).card
    falsePositives := ((fg roi).card : ℤ) - ((fg roi ∩ fg gt).card : ℤ) }

/-! ### Ground-truth normalization (`_read_gt`) -/

/-- The canonical ground-truth mask size used by `_read_gt`. -/
def canonicalSize : ℕ := 428

/-- Nearest input index for output index `i` when resampling an axis of
length `inSize` to length `outSize`, following the pixel-center coordinate
convention of `skimage.transform.resize`
(`src = (dst + 1/2) * inSize/outSize - 1/2`) with order-0 nearest-neighbor
interpolation, clamped to the valid index range. -/
def nnIndex (inSize outSize i : ℕ) : ℕ :=
  min (inSize - 1) (round ((((i : ℚ) + 1/2) * inSize) / outSize - 1/2)).toNat

/-- Center crop of `m` to the canonical 428×428 window: embeds
`sh, sw = (h - 428) // 2, (w - 428) // 2` and
`mask[sh:sh + 428, sw:sw + 428]` of `_read_gt`. -/
def centerCrop (m : Grid) : Grid :=
  ⟨canonicalSize, canonicalSize,
    fun i j => m.px ((m.h - canonicalSize) / 2 + i) ((m.w - canonicalSize) / 2 + j)⟩

/-- Rational value of output pixel `(i, j)` of
`skt.resize(mask, (428, 428), order=0, preserve_range=True,
anti_aliasing=False)`: order-0 interpolation with no smoothing copies the
value (here 0 or 1) of the nearest input pixel. -/
def resizeNNVal (m : Grid) (i j : ℕ) : ℚ :=
  if m.px (nnIndex m.h canonicalSize i) (nnIndex m.w canonicalSize j) then 1 else 0

/-- Re-binarization at threshold 0.5: embeds
`(resized > 0.5).astype(np.uint8)` applied to the resampled image. -/
def resampleBinarized (m : Grid) : Grid :=
  ⟨canonicalSize, canonicalSize, fun i j => decide ((1 : ℚ)/2 < resizeNNVal m i j)⟩

/-- Embeds `_read_gt`, applied to the binary grid `_read_mask` produced:
`if mask.shape == (428, 428): return mask` /
`if h >= 428 and w >= 428:` center-crop / else resample and re-binarize. -/
def read_gt (m : Grid) : Grid :=
  if m.h = canonicalSize ∧ m.w = canonicalSize then m
  else if canonicalSize ≤ m.h ∧ canonicalSize ≤ m.w then centerCrop m
  else resampleBinarized m

/-- A concrete 500×500 mask, foreground only at (36, 36). -/
def grid500 : Grid := ⟨500, 500, fun i j => decide (i = 36 ∧ j = 36)⟩

/-! ### Filename identifier extraction and file alignment -/

/-- Numeric value of a decimal digit character. -/
def digitVal (c : Char) : ℕ := c.toNat - 48

/-- Decimal value of a run of digit characters, most significant first
(`int("007") == 7`). -/
def decValue (cs : List Char) : ℕ := cs.foldl (fun n c => 10 * n + digitVal c) 0

/-- The last maximal run of consecutive digit characters of a string:
strip the maximal digit-free suffix, then take the maximal digit suffix of
what remains.  The matches of `re.findall` with the digit-run pattern are
exactly the maximal digit runs of `s`, so its last match is the maximal
digit run ending at the last digit of `s`, which is what this computes. -/
def lastDigitRun (s : String) : List Char :=
  ((s.toList.reverse.dropWhile fun c => ! c.isDigit).takeWhile Char.isDigit).reverse

/-- Embeds `_extract_number`: `nums` is the list of digit runs found by
`re.findall` in the filename, and the result is `int(nums[-1])` when `nums`
is nonempty and -1 otherwise. -/
def extract_number (s : String) : ℤ :=
  if lastDigitRun s = [] then -1 else (decValue (lastDigitRun s) : ℤ)

/-- Lookup of a filename by its extracted number, last file winning: embeds
the dict comprehension `{self._extract_number(f): f for f in files}` of
`_align_files`, where a later file overwrites an earlier one with the same
key. -/
def lookupByNum (files : List String) (n : ℤ) : Option String :=
  (files.filter fun f => decide (extract_number f = n)).getLast?

/-- The set of keys of the dict `{self._extract_number(f): f for f in files}`. -/
def keyNums (files : List String) : Finset ℤ :=
  (files.map extract_number).toFinset

/-- Embeds `_align_files`: for each number in the sorted intersection of the
three key sets, emit `(num, roi_map[num], gt_map[num], track_map[num])`.
For a number in the intersection the lookups are always `some`; `getD ""`
only discharges the `Option`. -/
def align_files (roi gt track : List String) : List (ℤ × String × String × String) :=
  ((keyNums roi ∩ keyNums gt ∩ keyNums track).sort (· ≤ ·)).map fun n =>
    (n, (lookupByNum roi n).getD "", (lookupByNum gt n).getD "",
      (lookupByNum track n).getD "")

/-- Embeds the mismatch report of `_align_files`:
`missing = all_nums - set(num for num, *_ in aligned)` where
`all_nums = set(roi_map) | set(gt_map) | set(track_map)`. -/
def missingNums (roi gt track : List String) : Finset ℤ :=
  (keyNums roi ∪ keyNums gt ∪ keyNums track) \
    ((align_files roi gt track).map fun t => t.1).toFinset

/-- Embeds the alignment check of `MaskTrackEvaluator.__init__`:
`self.file_triplets = self._align_files()`;
`if not self.file_triplets: raise ValueError("No aligned ROI / GT / Track files found!")`.
The subsequent mask/track loading is file I/O and is outside the embedding. -/
def init_file_triplets (roi gt track : List String) :
    Except String (List (ℤ × String × String × String)) :=
  if align_files roi gt track = [] then
    Except.error "No aligned ROI / GT / Track files found!"
  else Except.ok (align_files roi gt track)

/-- Concrete ROI file collection with ids {1, 2, 3}. -/
def roiEx : List String := ["a1.tif", "a2.tif", "a3.tif"]

/-- Concrete ground-truth file collection with ids {2, 3, 4}. -/
def gtEx : List String := ["b2.tif", "b3.tif", "b4.tif"]

/-- Concrete track file collection with ids {2, 3}. -/
def trackEx : List String := ["c2.csv", "c3.csv"]

/-- A tiny concrete mask used as a witness input: foreground only at (0,0). -/
def gridA : Grid := ⟨2, 2, fun i j => decide (i = 0 ∧ j = 0)⟩

/-- A tiny concrete mask used as a witness input: foreground on row 0. -/
def gridB : Grid := ⟨2, 2, fun i _ => decide (i = 0)⟩

/-! ### Track loading and track-id reconciliation -/

/-- The nanometers-per-pixel scale constant (constructor default 117). -/
def nm_per_pixel_default : ℚ := 117

/-- Round half to even: the rounding performed by pandas/numpy `.round()`
in `_load_tracks`.  For a non-tie it is the nearest integer, a tie goes to
the even neighbor. -/
def roundHalfEven (q : ℚ) : ℤ :=
  if q - ⌊q⌋ < 1/2 then ⌊q⌋
  else if 1/2 < q - ⌊q⌋ then ⌊q⌋ + 1
  else if Even ⌊q⌋ then ⌊q⌋ else ⌊q⌋ + 1

/-- A parsed raw row of a track CSV (`pd.read_csv` output): columns
`Frame`, `Track ID`, ` X (nm)`, `Y (nm)`, positions idealized as rationals. -/
structure RawTrackRow where
  frame : ℤ
  track_id : ℤ
  x_nm : ℚ
  y_nm : ℚ
deriving DecidableEq

/-- A track row after `_load_tracks` has added the derived pixel columns
` X (px)` and `Y (px)`. -/
structure TrackRow where
  frame : ℤ
  track_id : ℤ
  x_nm : ℚ
  y_nm : ℚ
  x_px : ℤ
  y_px : ℤ
deriving DecidableEq

/-- Embeds `_load_tracks` after `pd.read_csv`: the derived X (px) column is
the X (nm) column divided by `self.nm_per_pixel`, then `.round()` (half to
even) and `.astype(int)`; likewise Y (px) from Y (nm). -/
def load_tracks (scale : ℚ) (rows : List RawTrackRow) : List TrackRow :=
  rows.map fun r =>
    ⟨r.frame, r.track_id, r.x_nm, r.y_nm,
      roundHalfEven (r.x_nm / scale), roundHalfEven (r.y_nm / scale)⟩

/-- Pixel-coordinate membership test of `find_track_ids_in_mask`:
`y_idx, x_idx = np.where(mask == 1); coords = set(zip(x_idx, y_idx))`, so
`(x, y) in coords` iff `(x, y)` is an in-bounds position with
`mask[y][x] == 1`.  Exact-pixel membership, no neighborhood tolerance. -/
def coordInMask (mask : Grid) (x y : ℤ) : Bool :=
  decide (0 ≤ x) && decide (x < (mask.w : ℤ)) && decide (0 ≤ y) &&
    decide (y < (mask.h : ℤ)) && mask.px y.toNat x.toNat

/-- Embeds `find_track_ids_in_mask`: the set of `Track ID`s of the rows
whose derived pixel coordinate `( X (px), Y (px))` lies on mask
foreground. -/
def find_track_ids_in_mask (mask : Grid) (rows : List TrackRow) : Finset ℤ :=
  ((rows.filter fun r => coordInMask mask r.x_px r.y_px).map
    fun r => r.track_id).toFinset

/-- The frame restriction of `evaluate_track_comparison`:
`first_frame_tracks` keeps exactly the rows whose Frame column equals 1. -/
def frame1 (tracks : List TrackRow) : List TrackRow :=
  tracks.filter fun r => decide (r.frame = 1)

/-- One row of the "Track Comparison" table (the identifying file columns
are carried by the caller). -/
structure TrackComparisonRow where
  numExtra : ℕ
  numLost : ℕ
  extraIds : List ℤ
  lostIds : List ℤ
deriving DecidableEq

/-- Embeds the per-entry body of `evaluate_track_comparison`: restrict to
`Frame == 1` rows, compute the id sets under the predicted and ground-truth
masks, and report `extra = sorted(pred_ids - gt_ids)` and
`lost = sorted(gt_ids - pred_ids)` together with their counts. -/
def evaluate_track_comparison_entry (roiMask gtMask : Grid)
    (tracks : List TrackRow) : TrackComparisonRow :=
  let pred_ids := find_track_ids_in_mask roiMask (frame1 tracks)
  let gt_ids := find_track_ids_in_mask gtMask (frame1 tracks)
  let extra := (pred_ids \ gt_ids).sort (· ≤ ·)
  let lost := (gt_ids \ pred_ids).sort (· ≤ ·)
  ⟨extra.length, lost.length, extra, lost⟩

/-- A concrete frame-1 track row with id 7 at pixel (1, 0). -/
def trackRowEx : TrackRow := ⟨1, 7, 117, 0, 1, 0⟩

/-- A concrete raw track row: id 5, frame 1, position (1170 nm, 1229 nm). -/
def rawRowEx : RawTrackRow := ⟨1, 5, 1170, 1229⟩

/-- The row `load_tracks` produces from `rawRowEx` at scale 117:
1170/117 = 10 exactly and 1229/117 rounds to 11. -/
def loadedRowEx : TrackRow := ⟨1, 5, 1170, 1229, 10, 11⟩

/-! ### Aggregation (`summarize_results`) -/

/-- One row of a results table as summarized: the "File Number" column holds
either the literal marker label or a numeric id, the textual file-name
columns may be absent (pandas `NaN`), and the numeric columns are an ordered
list of rationals. -/
structure ResultRow where
  fileNumber : String ⊕ ℚ
  textCols : List (Option String)
  numCols : List ℚ
deriving DecidableEq

/-- The default summary-row label of `summarize_results`. -/
def defaultLabel : String := "Overall Average"

/-- Number of numeric columns of a table (taken from the first row; all
rows of a well-formed DataFrame agree). -/
def numArity (rows : List ResultRow) : ℕ :=
  match rows with
  | [] => 0
  | r :: _ => r.numCols.length

/-- Number of textual columns of a table (taken from the first row). -/
def textArity (rows : List ResultRow) : ℕ :=
  match rows with
  | [] => 0
  | r :: _ => r.textCols.length

/-- Column-wise mean of the numeric columns: embeds
`df[numeric_cols].mean().to_dict()`. -/
def colMeans (rows : List ResultRow) : List ℚ :=
  (List.range (numArity rows)).map fun j =>
    ((rows.map fun r => r.numCols.getD j 0).sum) / (rows.length : ℚ)

/-- Embeds `summarize_results`: append one summary row whose numeric columns
are the column-wise means, whose "File Number" entry is the label string
(`summary["File Number"] = label` overwrites the numeric mean of that
column), and whose textual columns are absent (`NaN` after `pd.concat`). -/
def summarize_results (rows : List ResultRow) (label : String) : List ResultRow :=
  rows ++ [⟨Sum.inl label, List.replicate (textArity rows) none, colMeans rows⟩]

/-- A concrete one-row metrics table. -/
def resultRowEx : ResultRow := ⟨Sum.inr 1, [some "a1.tif", some "b1.tif"], [1, 0, 3, 2]⟩

/-! ### Basic counting lemmas for the metrics -/

lemma jaccard_index_def (a b : Grid) :
    jaccard_index a b =
      if (fg a ∪ fg b).card = 0 then 1
      else ((fg a ∩ fg b).card : ℚ) / ((fg a ∪ fg b).card : ℚ) := rfl

lemma dice_coefficient_def (a b : Grid) :
    dice_coefficient a b =
      if (fg a).card + (fg b).card = 0 then 1
      else (2 * (fg a ∩ fg b).card : ℚ) / (((fg a).card + (fg b).card : ℕ) : ℚ) := rfl

lemma inter_card_le_union_card (a b : Grid) :
    (fg a ∩ fg b).card ≤ (fg a ∪ fg b).card :=
  Finset.card_le_card Finset.inter_subset_union

lemma union_card_add_inter_card (a b : Grid) :
    (fg a ∪ fg b).card + (fg a ∩ fg b).card = (fg a).card + (fg b).card :=
  Finset.card_union_add_card_inter (fg a) (fg b)

lemma inter_card_le_left (a b : Grid) :
    (fg a ∩ fg b).card ≤ (fg a).card :=
  Finset.card_le_card Finset.inter_subset_left

lemma extract_number_def (s : String) :
    extract_number s =
      if lastDigitRun s = [] then -1 else (decValue (lastDigitRun s) : ℤ) := rfl

lemma lastDigitRun_eq_nil_of_no_digit (s : String)
    (h : ∀ c ∈ s.toList, c.isDigit = false) : lastDigitRun s = [] := by
  unfold lastDigitRun
  have hdrop : s.toList.reverse.dropWhile (fun c => ! c.isDigit) = [] := by
    rw [List.dropWhile_eq_nil_iff]
    intro c hc
    simp [h c (List.mem_reverse.mp hc)]
  rw [hdrop]
  rfl

lemma lastDigitRun_decompose (u d v : List Char) (hd : d ≠ [])
    (hdall : ∀ c ∈ d, c.isDigit = true) (hv : ∀ c ∈ v, c.isDigit = false)
    (hu : u.reverse.takeWhile Char.isDigit = []) :
    lastDigitRun (String.mk (u ++ d ++ v)) = d := by
  have htl : (String.mk (u ++ d ++ v)).toList = u ++ d ++ v := rfl
  unfold lastDigitRun
  rw [htl, List.reverse_append, List.reverse_append]
  have hstep1 :
      ((v.reverse ++ (d.reverse ++ u.reverse)).dropWhile fun c => ! c.isDigit)
        = (d.reverse ++ u.reverse).dropWhile fun c => ! c.isDigit := by
    refine List.dropWhile_append_of_pos ?_
    intro c hc
    simp [hv c (List.mem_reverse.mp hc)]
  have hstep2 :
      ((d.reverse ++ u.reverse).dropWhile fun c => ! c.isDigit)
        = d.reverse ++ u.reverse := by
    cases hrev : d.reverse with
    | nil => exact absurd (List.reverse_eq_nil_iff.mp hrev) hd
    | cons c t =>
      have hcd : c ∈ d := List.mem_reverse.mp (hrev ▸ List.mem_cons_self c t)
      have : (! c.isDigit) = false := by simp [hdall c hcd]
      simp [List.dropWhile_cons, this]
  have hstep3 :
      (d.reverse ++ u.reverse).takeWhile Char.isDigit = d.reverse := by
    rw [List.takeWhile_append_of_pos (fun c hc => hdall c (List.mem_reverse.mp hc)),
      hu, List.append_nil]
  rw [hstep1, hstep2, hstep3, List.reverse_reverse]

/-- C4: identifier extraction returns the integer value of the last run of
consecutive digits found anywhere in the filename (`u ++ d ++ v` with `d` a
digit run ending the last digit region), returns -1 when the filename has no
digit, and in particular maps "cell_007.tif" to 7 and "noNumberHere.png" to
-1. -/
theorem extract_number_last_digit_run :
    extract_number "cell_007.tif" = 7 ∧
    extract_number "noNumberHere.png" = -1 ∧
    (∀ s : String, (∀ c ∈ s.toList, c.isDigit = false) → extract_number s = -1) ∧
    (∀ u d v : List Char, d ≠ [] → (∀ c ∈ d, c.isDigit = true) →
      (∀ c ∈ v, c.isDigit = false) → u.reverse.takeWhile Char.isDigit = [] →
      extract_number (String.mk (u ++ d ++ v)) = (decValue d : ℤ)) := by
  refine ⟨by decide, by decide, ?_, ?_⟩
  · intro s h
    rw [extract_number_def, if_pos (lastDigitRun_eq_nil_of_no_digit s h)]
  · intro u d v hd hdall hv hu
    rw [extract_number_def, lastDigitRun_decompose u d v hd hdall hv hu, if_neg hd]

/-- Witness for the C4 theorem: "img" ++ "42" ++ ".tif" extracts 42. -/
theorem extract_number_last_digit_run_witness :
    extract_number (String.mk ("img".toList ++ "42".toList ++ ".tif".toList))
      = (decValue "42".toList : ℤ) :=
  extract_number_last_digit_run.2.2.2 "img".toList "42".toList ".tif".toList
    (by decide) (by decide) (by decide) (by decide)

/-- C3: `_align_files` returns exactly the identifiers in the intersection of
the key sets of the three collections, as triplets sorted ascending by id, and the
reported missing set is exactly the union minus the intersection; on
collections with ids {1,2,3}, {2,3,4}, {2,3} the aligned ids are [2,3] and
the missing set is {1,4}. -/
theorem align_files_intersection_sorted :
    (∀ roi gt track : List String,
      ((align_files roi gt track).map fun t => t.1)
          = (keyNums roi ∩ keyNums gt ∩ keyNums track).sort (· ≤ ·) ∧
      List.Sorted (· ≤ ·) ((align_files roi gt track).map fun t => t.1) ∧
      (∀ n : ℤ, n ∈ (align_files roi gt track).map (fun t => t.1) ↔
          n ∈ keyNums roi ∧ n ∈ keyNums gt ∧ n ∈ keyNums track) ∧
      (∀ n : ℤ, n ∈ missingNums roi gt track ↔
          (n ∈ keyNums roi ∨ n ∈ keyNums gt ∨ n ∈ keyNums track) ∧
          ¬(n ∈ keyNums roi ∧ n ∈ keyNums gt ∧ n ∈ keyNums track))) ∧
    ((align_files roiEx gtEx trackEx).map fun t => t.1) = [2, 3] ∧
    missingNums roiEx gtEx trackEx = {1, 4} := by
  have hmap : ∀ roi gt track : List String,
      ((align_files roi gt track).map fun t => t.1)
        = (keyNums roi ∩ keyNums gt ∩ keyNums track).sort (· ≤ ·) := by
    intro roi gt track
    simp [align_files, List.map_map, Function.comp_def]
  have hmiss : ∀ roi gt track : List String,
      missingNums roi gt track
        = (keyNums roi ∪ keyNums gt ∪ keyNums track)
            \ (keyNums roi ∩ keyNums gt ∩ keyNums track) := by
    intro roi gt track
    unfold missingNums
    rw [hmap roi gt track, Finset.sort_toFinset]
  refine ⟨fun roi gt track => ⟨hmap roi gt track, ?_, ?_, ?_⟩, ?_, ?_⟩
  · rw [hmap]
    exact Finset.sort_sorted _ _
  · intro n
    rw [hmap, Finset.mem_sort, Finset.mem_inter, Finset.mem_inter, and_assoc]
  · intro n
    rw [hmiss, Finset.mem_sdiff, Finset.mem_union, Finset.mem_union,
      Finset.mem_inter, Finset.mem_inter]
    tauto
  · rw [hmap roiEx gtEx trackEx,
      (by decide : (keyNums roiEx ∩ keyNums gtEx ∩ keyNums trackEx : Finset ℤ)
        = {2, 3})]
    rw [Finset.sort_insert, Finset.sort_singleton] <;> decide
  · rw [hmiss roiEx gtEx trackEx]
    decide

/-- Witness for the C3 theorem: id 2 is aligned because it is in all three
key sets. -/
theorem align_files_intersection_sorted_witness :
    2 ∈ (align_files roiEx gtEx trackEx).map (fun t => t.1) ↔
      2 ∈ keyNums roiEx ∧ 2 ∈ keyNums gtEx ∧ 2 ∈ keyNums trackEx :=
  (align_files_intersection_sorted.1 roiEx gtEx trackEx).2.2.1 2

/-- C7: construction fails with the explicit error exactly when the aligned
triplet list is empty, and proceeds with the aligned triplets when it is
nonempty. -/
theorem init_raises_iff_no_triplets :
    ∀ roi gt track : List String,
      ((∃ msg, init_file_triplets roi gt track = Except.error msg) ↔
        align_files roi gt track = []) ∧
      (align_files roi gt track ≠ [] →
        init_file_triplets roi gt track
          = Except.ok (align_files roi gt track)) := by
  intro roi gt track
  by_cases h : align_files roi gt track = []
  · exact ⟨⟨fun _ => h, fun _ => ⟨"No aligned ROI / GT / Track files found!",
      by simp [init_file_triplets, h]⟩⟩, fun hn => absurd h hn⟩
  · constructor
    · constructor
      · rintro ⟨msg, hmsg⟩
        simp [init_file_triplets, h] at hmsg
      · intro he
        exact absurd he h
    · intro _
      simp [init_file_triplets, h]

/-- Witness for the C7 theorem: the nonempty example collections construct
successfully. -/
theorem init_raises_iff_no_triplets_witness :
    init_file_triplets roiEx gtEx trackEx
      = Except.ok (align_files roiEx gtEx trackEx) :=
  (init_raises_iff_no_triplets roiEx gtEx trackEx).2 (by
    intro h
    have hlen := congrArg List.length h
    simp only [align_files, List.length_map, Finset.length_sort,
      List.length_nil] at hlen
    exact absurd hlen (by decide))

/-- C2: `_read_gt` is a three-tier normalization: a 428×428 input is
returned pixel-identical; an input with both dimensions ≥ 428 is
center-cropped at offset `(dim - 428) / 2` per axis (offset (36, 36) for a
500×500 input); any input with a dimension < 428 is resampled to 428×428 by
nearest-neighbor interpolation with no smoothing and re-binarized at
threshold 0.5. -/
theorem read_gt_three_tier (m : Grid) :
    (m.h = 428 ∧ m.w = 428 → read_gt m = m) ∧
    (428 ≤ m.h ∧ 428 ≤ m.w → ¬(m.h = 428 ∧ m.w = 428) →
      read_gt m = centerCrop m ∧ (read_gt m).h = 428 ∧ (read_gt m).w = 428 ∧
      ∀ i j, (read_gt m).px i j
        = m.px ((m.h - 428) / 2 + i) ((m.w - 428) / 2 + j)) ∧
    (m.h < 428 ∨ m.w < 428 →
      read_gt m = resampleBinarized m ∧
      (read_gt m).h = 428 ∧ (read_gt m).w = 428 ∧
      ∀ i j, (read_gt m).px i j = decide ((1 : ℚ)/2 < resizeNNVal m i j)) ∧
    (m.h = 500 ∧ m.w = 500 →
      ∀ i j, (read_gt m).px i j = m.px (36 + i) (36 + j)) := by
  refine ⟨?_, ?_, ?_, ?_⟩
  · intro h
    unfold read_gt
    rw [if_pos]
    unfold canonicalSize
    exact ⟨h.1, h.2⟩
  · intro h hne
    have h1 : ¬(m.h = canonicalSize ∧ m.w = canonicalSize) := by
      unfold canonicalSize
      exact fun hc => hne hc
    have h2 : canonicalSize ≤ m.h ∧ canonicalSize ≤ m.w := by
      unfold canonicalSize
      exact h
    unfold read_gt
    rw [if_neg h1, if_pos h2]
    exact ⟨rfl, rfl, rfl, fun i j => rfl⟩
  · intro h
    have h1 : ¬(m.h = canonicalSize ∧ m.w = canonicalSize) := by
      unfold canonicalSize
      omega
    have h2 : ¬(canonicalSize ≤ m.h ∧ canonicalSize ≤ m.w) := by
      unfold canonicalSize
      omega
    unfold read_gt
    rw [if_neg h1, if_neg h2]
    exact ⟨rfl, rfl, rfl, fun i j => rfl⟩
  · rintro ⟨hh, hw⟩ i j
    have h1 : ¬(m.h = canonicalSize ∧ m.w = canonicalSize) := by
      unfold canonicalSize
      omega
    have h2 : canonicalSize ≤ m.h ∧ canonicalSize ≤ m.w := by
      unfold canonicalSize
      omega
    unfold read_gt
    rw [if_neg h1, if_pos h2]
    show m.px ((m.h - canonicalSize) / 2 + i) ((m.w - canonicalSize) / 2 + j)
      = m.px (36 + i) (36 + j)
    rw [hh, hw]
    norm_num [canonicalSize]

/-- Witness for the C2 theorem: the 500×500 mask `grid500` is cropped with
offset (36, 36), so output pixel (0, 0) is its input pixel (36, 36). -/
theorem read_gt_three_tier_witness :
    (read_gt grid500).px 0 0 = grid500.px 36 36 := by
  have h := (read_gt_three_tier grid500).2.2.2 ⟨rfl, rfl⟩ 0 0
  simpa using h

/-- C1: for same-shape binary masks: both empty gives Jaccard = Dice = 1;
nonempty and disjoint gives both = 0; identical and nonempty gives both = 1;
and whenever the union is nonempty, Jaccard = |a∩b|/|a∪b| and
Dice = 2|a∩b|/(|a|+|b|). -/
theorem jaccard_dice_case_analysis (a b : Grid) (hs : sameShape a b) :
    ((fg a).card = 0 ∧ (fg b).card = 0 →
        jaccard_index a b = 1 ∧ dice_coefficient a b = 1) ∧
    ((fg a).card ≠ 0 → (fg b).card ≠ 0 → fg a ∩ fg b = ∅ →
        jaccard_index a b = 0 ∧ dice_coefficient a b = 0) ∧
    (a = b → (fg a).card ≠ 0 →
        jaccard_index a b = 1 ∧ dice_coefficient a b = 1) ∧
    ((fg a ∪ fg b).card ≠ 0 →
        jaccard_index a b
          = ((fg a ∩ fg b).card : ℚ) / ((fg a ∪ fg b).card : ℚ) ∧
        dice_coefficient a b
          = (2 * (fg a ∩ fg b).card : ℚ) / (((fg a).card + (fg b).card : ℕ) : ℚ)) := by
  refine ⟨?_, ?_, ?_, ?_⟩
  · rintro ⟨ha, hb⟩
    rw [Finset.card_eq_zero] at ha hb
    constructor
    · simp [jaccard_index, ha, hb]
    · simp [dice_coefficient, ha, hb, Finset.card_eq_zero]
  · intro ha hb hdisj
    have hu : (fg a ∪ fg b).card ≠ 0 := by
      intro h
      rw [Finset.card_eq_zero, Finset.union_eq_empty] at h
      exact ha (by rw [h.1, Finset.card_empty])
    have hd : (fg a).card + (fg b).card ≠ 0 := by
      intro h
      exact ha (Nat.eq_zero_of_add_eq_zero_right h)
    constructor
    · simp [jaccard_index, hu, hdisj]
    · simp [dice_coefficient, hd, hdisj]
  · rintro rfl ha
    have hinter : fg a ∩ fg a = fg a := Finset.inter_self _
    have hunion : fg a ∪ fg a = fg a := Finset.union_self _
    have hca : ((fg a).card : ℚ) ≠ 0 := by exact_mod_cast ha
    constructor
    · rw [jaccard_index_def]
      simp only [hinter, hunion]
      rw [if_neg ha]
      exact div_self hca
    · rw [dice_coefficient_def]
      simp only [hinter]
      have hd : (fg a).card + (fg a).card ≠ 0 := by omega
      rw [if_neg hd]
      push_cast
      rw [two_mul]
      exact div_self (by positivity)
  · intro hu
    have hd : (fg a).card + (fg b).card ≠ 0 := by
      intro h
      have h1 := union_card_add_inter_card a b
      omega
    constructor
    · rw [jaccard_index_def, if_neg hu]
    · rw [dice_coefficient_def, if_neg hd]

/-- Witness for the C1 theorem at concrete masks `gridA`, `gridB`. -/
theorem jaccard_dice_case_analysis_witness :
    jaccard_index gridA gridB
      = ((fg gridA ∩ fg gridB).card : ℚ) / ((fg gridA ∪ fg gridB).card : ℚ) ∧
    dice_coefficient gridA gridB
      = (2 * (fg gridA ∩ fg gridB).card : ℚ)
          / (((fg gridA).card + (fg gridB).card : ℕ) : ℚ) :=
  (jaccard_dice_case_analysis gridA gridB ⟨rfl, rfl⟩).2.2.2 (by decide)

/-- C8: the reported false-positive count is exactly
`|predicted foreground| - |predicted ∩ ground truth|`, unclamped, and it is
always nonnegative because the intersection is a subset of the predicted
foreground. -/
theorem false_positives_unclamped_nonneg (roi gt : Grid) :
    (evaluate_mask_metrics_entry roi gt).falsePositives
        = ((fg roi).card : ℤ) - ((fg roi ∩ fg gt).card : ℤ) ∧
    0 ≤ (evaluate_mask_metrics_entry roi gt).falsePositives := by
  refine ⟨rfl, ?_⟩
  have h := inter_card_le_left roi gt
  simp only [evaluate_mask_metrics_entry, sub_nonneg]
  exact_mod_cast h

/-- C10: Jaccard is bounded by Dice, and both lie in [0, 1]. -/
theorem jaccard_le_dice_and_bounds (a b : Grid) (hs : sameShape a b) :
    jaccard_index a b ≤ dice_coefficient a b ∧
    0 ≤ jaccard_index a b ∧ jaccard_index a b ≤ 1 ∧
    0 ≤ dice_coefficient a b ∧ dice_coefficient a b ≤ 1 := by
  have hie := union_card_add_inter_card a b
  have hle := inter_card_le_union_card a b
  by_cases hu : (fg a ∪ fg b).card = 0
  · have hi : (fg a ∩ fg b).card = 0 := by omega
    have hd : (fg a).card + (fg b).card = 0 := by omega
    rw [jaccard_index_def, dice_coefficient_def]
    simp only [hu, hd]
    norm_num
  · have hd : (fg a).card + (fg b).card ≠ 0 := by omega
    rw [jaccard_index_def, dice_coefficient_def, if_neg hu, if_neg hd]
    set i := (fg a ∩ fg b).card with hi
    set u := (fg a ∪ fg b).card with hu2
    have hupos : (0 : ℚ) < u := by
      have : 0 < u := Nat.pos_of_ne_zero hu
      exact_mod_cast this
    have hdpos : (0 : ℚ) < ((fg a).card + (fg b).card : ℕ) := by
      have : 0 < (fg a).card + (fg b).card := Nat.pos_of_ne_zero hd
      exact_mod_cast this
    have hiu : (i : ℚ) ≤ (u : ℚ) := by exact_mod_cast hle
    have hinn : (0 : ℚ) ≤ (i : ℚ) := by positivity
    have hsum : (((fg a).card + (fg b).card : ℕ) : ℚ) = (u : ℚ) + (i : ℚ) := by
      exact_mod_cast hie.symm
    refine ⟨?_, ?_, ?_, ?_, ?_⟩
    · rw [div_le_div_iff hupos hdpos, hsum]
      nlinarith [mul_le_mul_of_nonneg_left hiu hinn]
    · positivity
    · rw [div_le_one hupos]; exact hiu
    · positivity
    · rw [div_le_one hdpos, hsum]
      linarith

/-- Witness for the C10 theorem at concrete masks `gridA`, `gridB`. -/
theorem jaccard_le_dice_and_bounds_witness :
    jaccard_index gridA gridB ≤ dice_coefficient gridA gridB :=
  (jaccard_le_dice_and_bounds gridA gridB ⟨rfl, rfl⟩).1

lemma roundHalfEven_nearest (q : ℚ) : |(roundHalfEven q : ℚ) - q| ≤ 1/2 := by
  have h0 : (⌊q⌋ : ℚ) ≤ q := Int.floor_le q
  have h1 : q < ⌊q⌋ + 1 := Int.lt_floor_add_one q
  unfold roundHalfEven
  split_ifs with hlt hgt hev
  · rw [abs_le]
    constructor <;> linarith
  · rw [abs_le]
    push_cast
    constructor <;> linarith
  · rw [abs_le]
    constructor <;> linarith
  · rw [abs_le]
    push_cast
    constructor <;> linarith

/-- C9: every loaded track row carries derived pixel coordinates
`x_px = round(x_nm / scale)` and `y_px = round(y_nm / scale)` (numpy
rounding, half to even), and these are nearest integers: they differ from
the exact quotient by at most 1/2.  The scale constant defaults to 117. -/
theorem load_tracks_pixel_rounding :
    nm_per_pixel_default = 117 ∧
    ∀ (scale : ℚ) (rows : List RawTrackRow), ∀ r ∈ load_tracks scale rows,
      r.x_px = roundHalfEven (r.x_nm / scale) ∧
      r.y_px = roundHalfEven (r.y_nm / scale) ∧
      |(r.x_px : ℚ) - r.x_nm / scale| ≤ 1/2 ∧
      |(r.y_px : ℚ) - r.y_nm / scale| ≤ 1/2 := by
  refine ⟨rfl, ?_⟩
  intro scale rows r hr
  simp only [load_tracks, List.mem_map] at hr
  obtain ⟨raw, _, rfl⟩ := hr
  exact ⟨rfl, rfl, roundHalfEven_nearest _, roundHalfEven_nearest _⟩

/-- Witness for the C9 theorem: the row loaded from `rawRowEx` at scale 117
has its x pixel coordinate within 1/2 of `x_nm / 117`. -/
theorem load_tracks_pixel_rounding_witness :
    |((loadedRowEx.x_px : ℚ)) - loadedRowEx.x_nm / 117| ≤ 1/2 :=
  (load_tracks_pixel_rounding.2 117 [rawRowEx] loadedRowEx (by
    have hx : roundHalfEven ((1170 : ℚ)/117) = 10 := by
      have hf : ⌊(1170 : ℚ)/117⌋ = 10 := by
        rw [Int.floor_eq_iff] <;> norm_num
      unfold roundHalfEven
      rw [hf, if_pos (by norm_num)]
    have hy : roundHalfEven ((1229 : ℚ)/117) = 11 := by
      have hf : ⌊(1229 : ℚ)/117⌋ = 10 := by
        rw [Int.floor_eq_iff] <;> norm_num
      unfold roundHalfEven
      rw [hf, if_neg (by norm_num), if_pos (by norm_num)]
      norm_num
    simp [load_tracks, rawRowEx, loadedRowEx, hx, hy])).2.2.1

lemma mem_find_track_ids (mask : Grid) (rows : List TrackRow) (t : ℤ) :
    t ∈ find_track_ids_in_mask mask rows ↔
      ∃ r ∈ rows, coordInMask mask r.x_px r.y_px = true ∧ r.track_id = t := by
  unfold find_track_ids_in_mask
  simp only [List.mem_toFinset, List.mem_map, List.mem_filter]
  constructor
  · rintro ⟨r, ⟨hr, hc⟩, ht⟩
    exact ⟨r, hr, hc, ht⟩
  · rintro ⟨r, hr, hc, ht⟩
    exact ⟨r, ⟨hr, hc⟩, ht⟩

lemma frame1_frame1 (tracks : List TrackRow) :
    frame1 (frame1 tracks) = frame1 tracks := by
  unfold frame1
  rw [List.filter_filter]
  congr 1
  funext r
  rw [Bool.and_self]

/-- C5: track comparison uses only `Frame == 1` rows (filtering the input to
frame 1 leaves the result unchanged), reports `extra` as the sorted list of
`pred_ids - gt_ids` and `lost` as the sorted list of `gt_ids - pred_ids`
with their counts, membership being exact-pixel foreground lookup; a track
whose frame-1 rows are foreground in the ground truth and background in the
prediction lands in `lost` and never in `extra`. -/
theorem track_comparison_extra_lost (roiMask gtMask : Grid)
    (tracks : List TrackRow) :
    evaluate_track_comparison_entry roiMask gtMask tracks
      = evaluate_track_comparison_entry roiMask gtMask (frame1 tracks) ∧
    (evaluate_track_comparison_entry roiMask gtMask tracks).extraIds
      = ((find_track_ids_in_mask roiMask (frame1 tracks))
          \ (find_track_ids_in_mask gtMask (frame1 tracks))).sort (· ≤ ·) ∧
    (evaluate_track_comparison_entry roiMask gtMask tracks).lostIds
      = ((find_track_ids_in_mask gtMask (frame1 tracks))
          \ (find_track_ids_in_mask roiMask (frame1 tracks))).sort (· ≤ ·) ∧
    (evaluate_track_comparison_entry roiMask gtMask tracks).numExtra
      = (evaluate_track_comparison_entry roiMask gtMask tracks).extraIds.length ∧
    (evaluate_track_comparison_entry roiMask gtMask tracks).numLost
      = (evaluate_track_comparison_entry roiMask gtMask tracks).lostIds.length ∧
    ∀ t : ℤ,
      (∃ r ∈ tracks, r.frame = 1 ∧ r.track_id = t ∧
        coordInMask gtMask r.x_px r.y_px = true) →
      (∀ r ∈ tracks, r.frame = 1 → r.track_id = t →
        coordInMask roiMask r.x_px r.y_px = false) →
      t ∈ (evaluate_track_comparison_entry roiMask gtMask tracks).lostIds ∧
      t ∉ (evaluate_track_comparison_entry roiMask gtMask tracks).extraIds := by
  refine ⟨?_, rfl, rfl, rfl, rfl, ?_⟩
  · unfold evaluate_track_comparison_entry
    rw [frame1_frame1]
  · rintro t ⟨r, hr, hf, hid, hgt⟩ hall
    have hrf : r ∈ frame1 tracks := by
      unfold frame1
      rw [List.mem_filter]
      exact ⟨hr, by simp [hf]⟩
    have hin : t ∈ find_track_ids_in_mask gtMask (frame1 tracks) :=
      (mem_find_track_ids _ _ _).mpr ⟨r, hrf, hgt, hid⟩
    have hout : t ∉ find_track_ids_in_mask roiMask (frame1 tracks) := by
      intro hmem
      obtain ⟨r2, hr2, hc2, hid2⟩ := (mem_find_track_ids _ _ _).mp hmem
      unfold frame1 at hr2
      rw [List.mem_filter] at hr2
      have hf2 : r2.frame = 1 := of_decide_eq_true hr2.2
      have hfalse := hall r2 hr2.1 hf2 hid2
      rw [hfalse] at hc2
      exact Bool.false_ne_true hc2
    constructor
    · rw [show (evaluate_track_comparison_entry roiMask gtMask tracks).lostIds
          = ((find_track_ids_in_mask gtMask (frame1 tracks))
              \ (find_track_ids_in_mask roiMask (frame1 tracks))).sort (· ≤ ·)
        from rfl, Finset.mem_sort]
      exact Finset.mem_sdiff.mpr ⟨hin, hout⟩
    · intro hmem
      rw [show (evaluate_track_comparison_entry roiMask gtMask tracks).extraIds
          = ((find_track_ids_in_mask roiMask (frame1 tracks))
              \ (find_track_ids_in_mask gtMask (frame1 tracks))).sort (· ≤ ·)
        from rfl, Finset.mem_sort] at hmem
      exact hout (Finset.mem_sdiff.mp hmem).1

/-- Witness for the C5 theorem: track 7 at pixel (1, 0), foreground in
`gridB` and background in `gridA`, is lost and not extra. -/
theorem track_comparison_extra_lost_witness :
    7 ∈ (evaluate_track_comparison_entry gridA gridB [trackRowEx]).lostIds ∧
    7 ∉ (evaluate_track_comparison_entry gridA gridB [trackRowEx]).extraIds :=
  (track_comparison_extra_lost gridA gridB [trackRowEx]).2.2.2.2.2 7
    (by decide) (by decide)

lemma colMeans_getD (rows : List ResultRow) (j : ℕ) (hj : j < numArity rows) :
    (colMeans rows).getD j 0
      = ((rows.map fun r => r.numCols.getD j 0).sum) / (rows.length : ℚ) := by
  have hlen : j < ((List.range (numArity rows)).map fun j =>
      ((rows.map fun r => r.numCols.getD j 0).sum) / (rows.length : ℚ)).length := by
    simpa using hj
  unfold colMeans
  rw [List.getD_eq_getElem _ _ hlen, List.getElem_map, List.getElem_range]

/-- C6: `summarize_results` on an N-row table yields an (N+1)-row table: the
first N rows are unchanged, and the appended row holds the exact arithmetic
mean of each numeric column and the literal marker label (default
"Overall Average") in the "File Number" column. -/
theorem summarize_appends_mean_row (rows : List ResultRow) (label : String)
    (hne : rows ≠ []) :
    defaultLabel = "Overall Average" ∧
    (summarize_results rows label).length = rows.length + 1 ∧
    (summarize_results rows label).take rows.length = rows ∧
    ∃ lastRow, (summarize_results rows label).getLast? = some lastRow ∧
      lastRow.fileNumber = Sum.inl label ∧
      lastRow.numCols.length = numArity rows ∧
      ∀ j < numArity rows,
        lastRow.numCols.getD j 0
          = ((rows.map fun r => r.numCols.getD j 0).sum) / (rows.length : ℚ) := by
  refine ⟨rfl, ?_, ?_, ?_⟩
  · simp [summarize_results]
  · unfold summarize_results
    exact List.take_left rows _
  · have hlast : (summarize_results rows label).getLast?
        = some ⟨Sum.inl label, List.replicate (textArity rows) none, colMeans rows⟩ := by
      unfold summarize_results
      exact List.getLast?_concat _
    refine ⟨_, hlast, rfl, ?_, ?_⟩
    · simp [colMeans]
    · intro j hj
      exact colMeans_getD rows j hj

/-- Witness for the C6 theorem: summarizing a one-row table yields two
rows. -/
theorem summarize_appends_mean_row_witness :
    (summarize_results [resultRowEx] defaultLabel).length
      = [resultRowEx].length + 1 :=
  (summarize_appends_mean_row [resultRowEx] defaultLabel (by decide)).2.1

end MaskEvaluator
